import Mathlib

/-!
Verification development for the DeconfounderFixedEffects repository
(src/fixed_effects.ipynb).

The notebook builds a synthetic panel: 100 people, each with a latent
time-invariant `ability` drawn from Poisson(5); observed `education_level`
for the years 1990, 1991, 1992, where the 1990 value is Poisson(ability)
and each later year adds a fresh Poisson(ability) increment.  It then
computes per-person PCA and factor-analysis reconstructions plus a
per-person noise column, melts the table to long format, derives
`income = 4 + 3 * education_level + ability` (plus Normal(0, noise_sd)
row noise, with noise_sd = 0), and fits six regression models.

Modelling conventions for the shallow embedding:

* The shared numpy pseudo-random generator is abstracted as a sampler
  family `pois : lam -> position -> Nat`: `pois lam k` is the
  Poisson(lam) variate produced from (an abstraction of) the global
  entropy stream at draw position `k`.  The notebook makes four
  vectorised Poisson calls of size `n`; call number `c` (0-based) places
  element `i` at stream position `c * n + i` (`drawPos`).  Distinct
  positions model independent draws.
* The sklearn `PCA(n_components=1).fit_transform` and
  `FactorAnalysis(n_components=1).fit_transform` outputs and the
  `np.random.normal` columns are floating-point computations; they are
  abstracted as per-index rational-valued columns (`pc`, `fc`, `nc`,
  and a standard-normal stream `z` scaled by the configured standard
  deviation, matching `np.random.normal(0, sd) = sd * standard_draw`).
* Exact rational arithmetic replaces floating point; a fitted OLS
  coefficient vector is characterised by the least-squares first-order
  (normal) equations.
* Numeric results that the committed notebook outputs record (the
  printed regression summaries) are transcribed as `recorded_*`
  constants, at the precision printed.
-/

namespace DeconfounderFE

/-- Number of entities, `n_people = 100` in the notebook. -/
def n_people : ℕ := 100

/-- Number of periods, `n_years = 3` in the notebook. -/
def n_years : ℕ := 3

/-- Outcome-noise standard deviation, `noise_sd = 0` in the notebook. -/
def noise_sd : ℚ := 0

/-- Stream position of element `i` of the `c`-th (0-based) vectorised
Poisson call of size `n`: the calls consume the shared generator
sequentially, so call `c` draws at positions `c * n .. c * n + n - 1`. -/
def drawPos (n c i : ℕ) : ℕ := c * n + i

/-- Latent trait: `people["ability"] = np.random.poisson(lam=5, size=n_people)`
(vectorised call 0).  Element `i` is a Poisson(5) draw. -/
def ability (n : ℕ) (pois : ℕ → ℕ → ℕ) (i : ℕ) : ℕ :=
  pois 5 (drawPos n 0 i)

/-- Observed trait, period 0:
`people["1990"] = np.random.poisson(lam=people["ability"], size=n_people)`
(vectorised call 1), a Poisson draw parameterised by person `i`'s own ability. -/
def e1990 (n : ℕ) (pois : ℕ → ℕ → ℕ) (i : ℕ) : ℕ :=
  pois (ability n pois i) (drawPos n 1 i)

/-- Observed trait, period 1:
`people["1991"] = people["1990"] + np.random.poisson(lam=people["ability"], size=n_people)`
(vectorised call 2). -/
def e1991 (n : ℕ) (pois : ℕ → ℕ → ℕ) (i : ℕ) : ℕ :=
  e1990 n pois i + pois (ability n pois i) (drawPos n 2 i)

/-- Observed trait, period 2:
`people["1992"] = people["1991"] + np.random.poisson(lam=people["ability"], size=n_people)`
(vectorised call 3). -/
def e1992 (n : ℕ) (pois : ℕ → ℕ → ℕ) (i : ℕ) : ℕ :=
  e1991 n pois i + pois (ability n pois i) (drawPos n 3 i)

/-- One row of the melted (long-format) table: the id_vars
`person, ability, pca, noise, factor` followed by the melted
`year` (from the former column label) and `education_level`
(the former cell value). -/
structure MeltedRow where
  person : ℕ
  ability : ℕ
  pca : ℚ
  noise : ℚ
  factor : ℚ
  year : ℕ
  education_level : ℕ
deriving DecidableEq

/-- One year-block of `people.melt(id_vars=['person','ability','pca','noise','factor'])`:
all `n` rows with the given year label and that year's education column. -/
def meltBlock (n : ℕ) (pois : ℕ → ℕ → ℕ) (pc fc nc : ℕ → ℚ)
    (label : ℕ) (educCol : ℕ → ℕ) : List MeltedRow :=
  (List.range n).map (fun i =>
    { person := i
      ability := ability n pois i
      pca := pc i
      noise := nc i
      factor := fc i
      year := label
      education_level := educCol i })

/-- The melted table: pandas `melt` stacks the value columns in column
order, so the long table is the 1990 block, then 1991, then 1992. -/
def meltPeople (n : ℕ) (pois : ℕ → ℕ → ℕ) (pc fc nc : ℕ → ℚ) : List MeltedRow :=
  meltBlock n pois pc fc nc 1990 (e1990 n pois) ++
    meltBlock n pois pc fc nc 1991 (e1991 n pois) ++
      meltBlock n pois pc fc nc 1992 (e1992 n pois)

/-- Row-wise income derivation:
`eval("income = 4 + 3 * education_level + ability")` followed by
`assign(income = income + np.random.normal(0, noise_sd, n_people*n_years))`;
the noise vector is positionally aligned with the rows, and
`np.random.normal(0, sd)` is `sd` times a standard-normal draw `z k`.
`k0` is the stream position of the first row. -/
def incomeOf (sd : ℚ) (z : ℕ → ℚ) : ℕ → List MeltedRow → List (MeltedRow × ℚ)
  | _, [] => []
  | k, r :: rs =>
    (r, 4 + 3 * (r.education_level : ℚ) + (r.ability : ℚ) + sd * z k) ::
      incomeOf sd z (k + 1) rs

/-- The full long-format table with income, for a configurable noise
standard deviation `sd`. -/
def peopleMeltedWith (sd : ℚ) (n : ℕ) (pois : ℕ → ℕ → ℕ)
    (pc fc nc : ℕ → ℚ) (z : ℕ → ℚ) : List (MeltedRow × ℚ) :=
  incomeOf sd z 0 (meltPeople n pois pc fc nc)

/-- The notebook's long-format table (`people_melted`), at the notebook's
configured `noise_sd = 0`. -/
def people_melted (n : ℕ) (pois : ℕ → ℕ → ℕ)
    (pc fc nc : ℕ → ℚ) (z : ℕ → ℚ) : List (MeltedRow × ℚ) :=
  peopleMeltedWith noise_sd n pois pc fc nc z

/-! ## Ordinary least squares over exact rationals

A regression dataset is a list of rows `(x, z, y)`: `x` is the
`education_level` regressor, `z` a second covariate (`ability`, `pca`,
`factor` or `noise`, depending on the model), `y` the `income` response.
A fitted coefficient vector is characterised by the least-squares
first-order conditions (normal equations): the residuals are orthogonal
to each regression column. -/

/-- A regression row: regressor `x`, second covariate `z`, response `y`. -/
structure RegRow where
  x : ℚ
  z : ℚ
  y : ℚ
deriving DecidableEq

/-- Number of rows, as a rational. -/
def Nn (data : List RegRow) : ℚ := (data.length : ℚ)

/-- Sum of the regressor column. -/
def Sx (data : List RegRow) : ℚ := (data.map (fun r => r.x)).sum

/-- Sum of the second-covariate column. -/
def Sz (data : List RegRow) : ℚ := (data.map (fun r => r.z)).sum

/-- Sum of squares of the regressor column. -/
def Sxx (data : List RegRow) : ℚ := (data.map (fun r => r.x * r.x)).sum

/-- Sum of cross products of the two covariate columns. -/
def Sxz (data : List RegRow) : ℚ := (data.map (fun r => r.x * r.z)).sum

/-- Sum of squares of the second-covariate column. -/
def Szz (data : List RegRow) : ℚ := (data.map (fun r => r.z * r.z)).sum

/-- Residual of row `r` under intercept `b0` and slopes `b1` (on `x`)
and `b2` (on `z`). -/
def resid2 (b0 b1 b2 : ℚ) (r : RegRow) : ℚ := r.y - (b0 + b1 * r.x + b2 * r.z)

/-- Residual of row `r` under intercept `b0` and slope `b1`, single
regressor `x` (the covariate `z` is omitted from the model). -/
def resid1 (b0 b1 : ℚ) (r : RegRow) : ℚ := r.y - (b0 + b1 * r.x)

/-- Normal equations of the two-regressor OLS `y ~ x + z`
(with intercept): residuals sum to zero and are orthogonal to each
regressor.  These are the first-order conditions characterising the
least-squares fit computed by `smf.ols(...).fit()`. -/
def normalEqs2 (data : List RegRow) (b0 b1 b2 : ℚ) : Prop :=
  (data.map (fun r => resid2 b0 b1 b2 r)).sum = 0 ∧
    (data.map (fun r => r.x * resid2 b0 b1 b2 r)).sum = 0 ∧
      (data.map (fun r => r.z * resid2 b0 b1 b2 r)).sum = 0

/-- Normal equations of the single-regressor OLS `y ~ x` (with
intercept). -/
def normalEqs1 (data : List RegRow) (b0 b1 : ℚ) : Prop :=
  (data.map (fun r => resid1 b0 b1 r)).sum = 0 ∧
    (data.map (fun r => r.x * resid1 b0 b1 r)).sum = 0

/-- Determinant of the Gram matrix of the design `[1, x, z]`
(cofactor expansion along the first row); the two-regressor normal
equations have a unique solution exactly when it is nonzero. -/
def detGram (data : List RegRow) : ℚ :=
  Nn data * (Sxx data * Szz data - Sxz data * Sxz data) -
    Sx data * (Sx data * Szz data - Sz data * Sxz data) +
      Sz data * (Sx data * Sxz data - Sz data * Sxx data)

/-- The two-regressor dataset of model (a), `income ~ education_level + ability`,
read off the long-format table. -/
def regDataAbility (t : List (MeltedRow × ℚ)) : List RegRow :=
  t.map (fun p => { x := (p.1.education_level : ℚ), z := (p.1.ability : ℚ), y := p.2 })

/-- The model (a)/(b) dataset of the notebook's configured run, with the
entity count left at the notebook's `n_people`. -/
def modelData (pois : ℕ → ℕ → ℕ) (pc fc nc z : ℕ → ℚ) : List RegRow :=
  regDataAbility (people_melted n_people pois pc fc nc z)

/-- Kind of a fitted statsmodels model: `smf.ols` or `smf.mixedlm`. -/
inductive ModelKind where
  | ols
  | mixedlm
deriving DecidableEq

/-- One fit-and-report cell of the notebook: the model kind, the patsy
formula, and whether the cell prints `res.summary()`. -/
structure FittedModel where
  kind : ModelKind
  formula : String
  printedSummary : Bool
deriving DecidableEq

/-- The regression cells of the notebook, in execution order
(cells 11, 13, 15, 17, 18, 20): models (a) through (f).  Each cell
builds its model on `people_melted`, fits it, and prints one summary. -/
def fittedModels : List FittedModel :=
  [ { kind := ModelKind.ols, formula := "income ~ education_level + ability",
      printedSummary := true }
  , { kind := ModelKind.ols, formula := "income ~ education_level",
      printedSummary := true }
  , { kind := ModelKind.mixedlm, formula := "income ~ education_level",
      printedSummary := true }
  , { kind := ModelKind.ols, formula := "income ~ education_level + pca",
      printedSummary := true }
  , { kind := ModelKind.ols, formula := "income ~ education_level + factor",
      printedSummary := true }
  , { kind := ModelKind.ols, formula := "income ~ education_level + noise",
      printedSummary := true } ]

/-! ### Recorded regression summaries

The committed notebook outputs record the fitted coefficient tables;
the constants below transcribe them at the printed precision. -/

/-- Recorded `education_level` coefficient of model (b),
`smf.ols("income ~ education_level")` (cell 13 output). -/
def recorded_b_education_coef : ℚ := 3.1642

/-- Recorded `education_level` coefficient of model (d),
`smf.ols("income ~ education_level + pca")` (cell 17 output). -/
def recorded_d_education_coef : ℚ := 2.9981

/-- Recorded `education_level` coefficient of model (e),
`smf.ols("income ~ education_level + factor")` (cell 18 output). -/
def recorded_e_education_coef : ℚ := 3.0118

/-- Recorded `education_level` coefficient of model (f),
`smf.ols("income ~ education_level + noise")` (cell 20 output). -/
def recorded_f_education_coef : ℚ := 3.1642

/-- Recorded lower end of the 95% confidence interval of the `noise`
coefficient in model (f) (cell 20 output). -/
def recorded_f_noise_ci_lower : ℚ := -0.202

/-- Recorded upper end of the 95% confidence interval of the `noise`
coefficient in model (f) (cell 20 output). -/
def recorded_f_noise_ci_upper : ℚ := 0.189

/-! ### Sum bookkeeping -/

lemma sum_affine (data : List RegRow) (c d e : ℚ) :
    (data.map (fun r => c + d * r.x + e * r.z)).sum
      = c * Nn data + d * Sx data + e * Sz data := by
  induction data with
  | nil => simp [Nn, Sx, Sz]
  | cons r rs ih =>
    simp only [Nn, Sx, Sz, List.map_cons, List.sum_cons, List.length_cons] at *
    push_cast
    rw [ih]; ring

lemma sum_x_affine (data : List RegRow) (c d e : ℚ) :
    (data.map (fun r => r.x * (c + d * r.x + e * r.z))).sum
      = c * Sx data + d * Sxx data + e * Sxz data := by
  induction data with
  | nil => simp [Sx, Sxx, Sxz]
  | cons r rs ih =>
    simp only [Sx, Sxx, Sxz, List.map_cons, List.sum_cons] at *
    rw [ih]; ring

lemma sum_z_affine (data : List RegRow) (c d e : ℚ) :
    (data.map (fun r => r.z * (c + d * r.x + e * r.z))).sum
      = c * Sz data + d * Sxz data + e * Szz data := by
  induction data with
  | nil => simp [Sz, Sxz, Szz]
  | cons r rs ih =>
    simp only [Sz, Sxz, Szz, List.map_cons, List.sum_cons] at *
    rw [ih]; ring

/-- On a dataset whose response is exactly `y = 4 + 3 x + z`, the
two-regressor residual is the affine function of the regressors with
shifted coefficients. -/
lemma resid2_eq_affine (data : List RegRow)
    (hy : ∀ r ∈ data, r.y = 4 + 3 * r.x + r.z) (b0 b1 b2 : ℚ) :
    data.map (fun r => resid2 b0 b1 b2 r)
      = data.map (fun r => (4 - b0) + (3 - b1) * r.x + (1 - b2) * r.z) := by
  refine List.map_congr_left (fun r hr => ?_)
  simp only [resid2, hy r hr]; ring

lemma resid1_eq_affine (data : List RegRow)
    (hy : ∀ r ∈ data, r.y = 4 + 3 * r.x + r.z) (b0 b1 : ℚ) :
    data.map (fun r => resid1 b0 b1 r)
      = data.map (fun r => (4 - b0) + (3 - b1) * r.x + (1 : ℚ) * r.z) := by
  refine List.map_congr_left (fun r hr => ?_)
  simp only [resid1, hy r hr]; ring

/-- Exact-recovery core lemma: on data with `y = 4 + 3 x + z` row-wise,
the vector `(4, 3, 1)` satisfies the two-regressor normal equations, and
when the Gram determinant is nonzero it is the only solution. -/
lemma ols2_exact_recovery (data : List RegRow)
    (hy : ∀ r ∈ data, r.y = 4 + 3 * r.x + r.z) :
    normalEqs2 data 4 3 1 ∧
      (detGram data ≠ 0 → ∀ b0 b1 b2, normalEqs2 data b0 b1 b2 →
        b0 = 4 ∧ b1 = 3 ∧ b2 = 1) := by
  constructor
  · refine ⟨?_, ?_, ?_⟩ <;>
    · rw [show (0 : ℚ) = (data.map (fun _ => (0 : ℚ))).sum by simp]
      congr 1
      refine List.map_congr_left (fun r hr => ?_)
      simp [resid2, hy r hr]
  · intro hdet b0 b1 b2 hne
    obtain ⟨h0, h1, h2⟩ := hne
    rw [resid2_eq_affine data hy b0 b1 b2] at h0
    have e0 : (4 - b0) * Nn data + (3 - b1) * Sx data + (1 - b2) * Sz data = 0 := by
      rw [← sum_affine]; exact h0
    have h1' := h1
    rw [show (fun r => r.x * resid2 b0 b1 b2 r)
          = (fun r : RegRow => r.x * (r.y - (b0 + b1 * r.x + b2 * r.z))) from rfl] at h1'
    have e1 : (4 - b0) * Sx data + (3 - b1) * Sxx data + (1 - b2) * Sxz data = 0 := by
      rw [← sum_x_affine]
      rw [show data.map (fun r => r.x * ((4 - b0) + (3 - b1) * r.x + (1 - b2) * r.z))
            = data.map (fun r => r.x * resid2 b0 b1 b2 r) from
        List.map_congr_left (fun r hr => by simp only [resid2, hy r hr]; ring)]
      exact h1
    have e2 : (4 - b0) * Sz data + (3 - b1) * Sxz data + (1 - b2) * Szz data = 0 := by
      rw [← sum_z_affine]
      rw [show data.map (fun r => r.z * ((4 - b0) + (3 - b1) * r.x + (1 - b2) * r.z))
            = data.map (fun r => r.z * resid2 b0 b1 b2 r) from
        List.map_congr_left (fun r hr => by simp only [resid2, hy r hr]; ring)]
      exact h2
    set N := Nn data
    set sx := Sx data
    set sz := Sz data
    set sxx := Sxx data
    set sxz := Sxz data
    set szz := Szz data
    have hD : detGram data = N * (sxx * szz - sxz * sxz) - sx * (sx * szz - sz * sxz)
        + sz * (sx * sxz - sz * sxx) := rfl
    have k0 : detGram data * (4 - b0) = 0 := by
      rw [hD]
      linear_combination (sxx * szz - sxz * sxz) * e0 - (sx * szz - sz * sxz) * e1
        + (sx * sxz - sz * sxx) * e2
    have k1 : detGram data * (3 - b1) = 0 := by
      rw [hD]
      linear_combination (-(sx * szz) + sz * sxz) * e0 + (N * szz - sz * sz) * e1
        - (N * sxz - sx * sz) * e2
    have k2 : detGram data * (1 - b2) = 0 := by
      rw [hD]
      linear_combination (sx * sxz - sz * sxx) * e0 - (N * sxz - sz * sx) * e1
        + (N * sxx - sx * sx) * e2
    have hb0 : (4 : ℚ) - b0 = 0 := by
      rcases mul_eq_zero.mp k0 with h | h
      · exact absurd h hdet
      · exact h
    have hb1 : (3 : ℚ) - b1 = 0 := by
      rcases mul_eq_zero.mp k1 with h | h
      · exact absurd h hdet
      · exact h
    have hb2 : (1 : ℚ) - b2 = 0 := by
      rcases mul_eq_zero.mp k2 with h | h
      · exact absurd h hdet
      · exact h
    exact ⟨by linarith, by linarith, by linarith⟩

/-- Omitted-variable-bias core lemma: on data with `y = 4 + 3 x + z`
row-wise, positive sample variance of `x` and positive sample covariance
of `x` and `z` force the single-regressor slope above 3. -/
lemma ols1_bias_up (data : List RegRow)
    (hy : ∀ r ∈ data, r.y = 4 + 3 * r.x + r.z)
    (hvar : 0 < Nn data * Sxx data - Sx data * Sx data)
    (hcov : 0 < Nn data * Sxz data - Sx data * Sz data) :
    ∀ b0 b1, normalEqs1 data b0 b1 → 3 < b1 := by
  intro b0 b1 hne
  obtain ⟨h0, h1⟩ := hne
  rw [resid1_eq_affine data hy b0 b1] at h0
  have e0 : (4 - b0) * Nn data + (3 - b1) * Sx data + 1 * Sz data = 0 := by
    rw [← sum_affine]; exact h0
  have e1 : (4 - b0) * Sx data + (3 - b1) * Sxx data + 1 * Sxz data = 0 := by
    rw [← sum_x_affine]
    rw [show data.map (fun r => r.x * ((4 - b0) + (3 - b1) * r.x + 1 * r.z))
          = data.map (fun r => r.x * resid1 b0 b1 r) from
      List.map_congr_left (fun r hr => by simp only [resid1, hy r hr]; ring)]
    exact h1
  have key : (b1 - 3) * (Nn data * Sxx data - Sx data * Sx data)
      = Nn data * Sxz data - Sx data * Sz data := by
    linear_combination Sx data * e0 - Nn data * e1
  rw [← key] at hcov
  rcases mul_pos_iff.mp hcov with ⟨hb, _⟩ | ⟨_, hv⟩
  · linarith
  · linarith

/-! ### Long-format pipeline facts -/

lemma incomeOf_getElem (sd : ℚ) (z : ℕ → ℚ) :
    ∀ (rows : List MeltedRow) (k0 k : ℕ),
      (incomeOf sd z k0 rows)[k]? =
        (rows[k]?).map (fun r =>
          (r, 4 + 3 * (r.education_level : ℚ) + (r.ability : ℚ) + sd * z (k0 + k))) := by
  intro rows
  induction rows with
  | nil => intro k0 k; simp [incomeOf]
  | cons r rs ih =>
    intro k0 k
    cases k with
    | zero => simp [incomeOf]
    | succ k =>
      simp only [incomeOf, List.getElem?_cons_succ]
      rw [ih (k0 + 1) k]
      have : k0 + 1 + k = k0 + (k + 1) := by omega
      rw [this]

lemma incomeOf_length (sd : ℚ) (z : ℕ → ℚ) :
    ∀ (rows : List MeltedRow) (k0 : ℕ),
      (incomeOf sd z k0 rows).length = rows.length := by
  intro rows
  induction rows with
  | nil => intro k0; simp [incomeOf]
  | cons r rs ih => intro k0; simp [incomeOf, ih]

/-- Every member of the long-format table (with `noise_sd = 0`) has its
income equal to `4 + 3 * education_level + ability` exactly. -/
lemma mem_people_melted_income (n : ℕ) (pois : ℕ → ℕ → ℕ) (pc fc nc z : ℕ → ℚ) :
    ∀ p ∈ people_melted n pois pc fc nc z,
      p.2 = 4 + 3 * (p.1.education_level : ℚ) + (p.1.ability : ℚ) := by
  intro p hp
  rw [people_melted, peopleMeltedWith, noise_sd] at hp
  obtain ⟨k, hk⟩ := List.getElem?_of_mem hp
  rw [incomeOf_getElem] at hk
  rcases Option.map_eq_some'.mp hk with ⟨r, _, hr⟩
  rw [← hr]
  simp

/-- The model (a) regression dataset satisfies the exact generative
relation row-wise. -/
lemma regDataAbility_affine (n : ℕ) (pois : ℕ → ℕ → ℕ) (pc fc nc z : ℕ → ℚ) :
    ∀ r ∈ regDataAbility (people_melted n pois pc fc nc z),
      r.y = 4 + 3 * r.x + r.z := by
  intro r hr
  rw [regDataAbility, List.mem_map] at hr
  obtain ⟨p, hp, rfl⟩ := hr
  exact mem_people_melted_income n pois pc fc nc z p hp

/-- Membership characterisation of the melted table: every row carries
its person's entity-level column values. -/
lemma mem_meltPeople (n : ℕ) (pois : ℕ → ℕ → ℕ) (pc fc nc : ℕ → ℚ)
    (r : MeltedRow) (h : r ∈ meltPeople n pois pc fc nc) :
    r.person < n ∧ r.ability = ability n pois r.person ∧
      r.pca = pc r.person ∧ r.noise = nc r.person ∧ r.factor = fc r.person := by
  simp only [meltPeople, meltBlock, List.mem_append, List.mem_map, List.mem_range] at h
  rcases h with (⟨i, hi, rfl⟩ | ⟨i, hi, rfl⟩) | ⟨i, hi, rfl⟩ <;> exact ⟨hi, rfl, rfl, rfl, rfl⟩

/-! ## Claims -/

/-- C1: in the notebook's configured run (`n_people = 100` entities,
3 periods, latent Poisson rate 5, `noise_sd = 0`, any realisation of the
seeded sampler), the regression of income on `education_level` and
`ability` (model (a)) is solved exactly by intercept 4,
observed-trait coefficient 3 and latent-trait coefficient 1: that vector
satisfies the OLS normal equations, and — whenever the design Gram
determinant is nonzero, as in the recorded seed-6429 run — it is the
unique solution, so every fitted coefficient is within `1e-6` (indeed,
equal). -/
theorem C1_model_a_recovers_generative_coefficients
    (pois : ℕ → ℕ → ℕ) (pc fc nc z : ℕ → ℚ)
    (hdet : detGram (modelData pois pc fc nc z) ≠ 0) :
    normalEqs2 (modelData pois pc fc nc z) 4 3 1 ∧
      ∀ b0 b1 b2, normalEqs2 (modelData pois pc fc nc z) b0 b1 b2 →
        (b0 = 4 ∧ b1 = 3 ∧ b2 = 1) ∧
          |b0 - 4| ≤ 1 / 1000000 ∧ |b1 - 3| ≤ 1 / 1000000 ∧ |b2 - 1| ≤ 1 / 1000000 := by
  have hy := regDataAbility_affine n_people pois pc fc nc z
  obtain ⟨hex, huniq⟩ := ols2_exact_recovery (modelData pois pc fc nc z) hy
  refine ⟨hex, fun b0 b1 b2 hne => ?_⟩
  obtain ⟨h0, h1, h2⟩ := huniq hdet b0 b1 b2 hne
  subst h0; subst h1; subst h2
  norm_num

set_option maxRecDepth 8000

/-- Witness for C1 at a concrete sampler realisation. -/
theorem C1_model_a_recovers_generative_coefficients_witness :
    detGram (modelData (fun _ k => k)
        (fun i => (i : ℚ)) (fun i => (i : ℚ)) (fun i => (i : ℚ)) (fun _ => 0)) ≠ 0 ∧
      normalEqs2 (modelData (fun _ k => k)
        (fun i => (i : ℚ)) (fun i => (i : ℚ)) (fun i => (i : ℚ)) (fun _ => 0)) 4 3 1 := by
  have hdet : detGram (modelData (fun _ k => k)
      (fun i => (i : ℚ)) (fun i => (i : ℚ)) (fun i => (i : ℚ)) (fun _ => 0)) ≠ 0 := by
    simp [modelData, n_people, people_melted, peopleMeltedWith, noise_sd, incomeOf,
      meltPeople, meltBlock, ability, e1990, e1991, e1992, drawPos, regDataAbility,
      detGram, Nn, Sx, Sz, Sxx, Sxz, Szz, List.range_succ]
    norm_num
  exact ⟨hdet,
    (C1_model_a_recovers_generative_coefficients (fun _ k => k)
      (fun i => (i : ℚ)) (fun i => (i : ℚ)) (fun i => (i : ℚ)) (fun _ => 0) hdet).1⟩

/-- C2: the panel generator draws one latent trait per entity
(`ability i` comes from the Poisson(5) sampler at its own stream
position), draws the period-0 observed value from a Poisson
distribution whose rate is that entity's own latent trait, and sets
each later period's value to the prior period's value plus a fresh
Poisson(own-ability) draw; all draw positions across the four
vectorised calls are pairwise distinct, modelling independent draws. -/
theorem C2_generator_draw_structure (n : ℕ) (pois : ℕ → ℕ → ℕ) (i : ℕ) (hi : i < n) :
    ability n pois i = pois 5 (drawPos n 0 i) ∧
      e1990 n pois i = pois (ability n pois i) (drawPos n 1 i) ∧
        e1991 n pois i = e1990 n pois i + pois (ability n pois i) (drawPos n 2 i) ∧
          e1992 n pois i = e1991 n pois i + pois (ability n pois i) (drawPos n 3 i) ∧
            ∀ c1 c2 i1 i2, c1 ≤ 3 → c2 ≤ 3 → i1 < n → i2 < n →
              drawPos n c1 i1 = drawPos n c2 i2 → c1 = c2 ∧ i1 = i2 := by
  refine ⟨rfl, rfl, rfl, rfl, ?_⟩
  intro c1 c2 i1 i2 h1 h2 hi1 hi2 heq
  rw [drawPos, drawPos] at heq
  interval_cases c1 <;> interval_cases c2 <;> omega

/-- Witness for C2 at the first entity of a two-entity panel. -/
theorem C2_generator_draw_structure_witness :
    (0 : ℕ) < 2 ∧
      e1990 2 (fun _ k => k) 0 = (fun _ k => k) (ability 2 (fun _ k => k) 0) (drawPos 2 1 0) := by
  exact ⟨by decide, (C2_generator_draw_structure 2 (fun _ k => k) 0 (by decide)).2.1⟩

/-- C3: for every entity, the generated observed-trait sequence is
non-decreasing across the three periods, because each later period adds
a Poisson draw, which is a natural number. -/
theorem C3_observed_trait_nondecreasing (n : ℕ) (pois : ℕ → ℕ → ℕ) (i : ℕ) :
    e1990 n pois i ≤ e1991 n pois i ∧ e1991 n pois i ≤ e1992 n pois i :=
  ⟨Nat.le_add_right _ _, Nat.le_add_right _ _⟩

/-- C4: every row of the long-format table has
`income = 4 + 3 * education_level + ability + sd * z k` (the configured
noise term at that row's position), and with noise standard deviation 0
the income equals the affine function exactly. -/
theorem C4_income_row_formula (sd : ℚ) (n : ℕ) (pois : ℕ → ℕ → ℕ)
    (pc fc nc z : ℕ → ℚ) (k : ℕ) (r : MeltedRow) (y : ℚ)
    (h : (peopleMeltedWith sd n pois pc fc nc z)[k]? = some (r, y)) :
    y = 4 + 3 * (r.education_level : ℚ) + (r.ability : ℚ) + sd * z k ∧
      (sd = 0 → y = 4 + 3 * (r.education_level : ℚ) + (r.ability : ℚ)) := by
  rw [peopleMeltedWith, incomeOf_getElem] at h
  rcases Option.map_eq_some'.mp h with ⟨r', _, heq⟩
  rw [Prod.mk.injEq] at heq
  obtain ⟨rfl, rfl⟩ := heq
  rw [Nat.zero_add]
  exact ⟨rfl, fun h0 => by rw [h0]; ring⟩

/-- Witness for C4 on a one-entity panel with `sd = 0`: row 0 is the
1990 record of person 0 with education 1, and its income is exactly
`4 + 3 * 1 + 0 = 7`. -/
theorem C4_income_row_formula_witness :
    (peopleMeltedWith 0 1 (fun _ k => k)
        (fun i => (i : ℚ)) (fun i => (i : ℚ)) (fun i => (i : ℚ)) (fun _ => 0))[0]? =
      some (⟨0, 0, 0, 0, 0, 1990, 1⟩, 7) ∧
      (7 : ℚ) = 4 + 3 * ((1 : ℕ) : ℚ) + ((0 : ℕ) : ℚ) := by
  have h : (peopleMeltedWith 0 1 (fun _ k => k)
      (fun i => (i : ℚ)) (fun i => (i : ℚ)) (fun i => (i : ℚ)) (fun _ => 0))[0]? =
      some (⟨0, 0, 0, 0, 0, 1990, 1⟩, 7) := by
    norm_num [peopleMeltedWith, incomeOf, meltPeople, meltBlock, ability, e1990,
      drawPos, List.range_succ]
  refine ⟨h, ?_⟩
  have := (C4_income_row_formula 0 1 (fun _ k => k)
    (fun i => (i : ℚ)) (fun i => (i : ℚ)) (fun i => (i : ℚ)) (fun _ => 0)
    0 ⟨0, 0, 0, 0, 0, 1990, 1⟩ 7 h).2 rfl
  exact this

/-- C5: any two long-format records of the same entity agree on every
entity-level column carried through the melt: `ability`, `pca`,
`factor` and `noise`. -/
theorem C5_entity_columns_constant_within_entity (n : ℕ) (pois : ℕ → ℕ → ℕ)
    (pc fc nc : ℕ → ℚ) (r1 r2 : MeltedRow)
    (h1 : r1 ∈ meltPeople n pois pc fc nc) (h2 : r2 ∈ meltPeople n pois pc fc nc)
    (hp : r1.person = r2.person) :
    r1.ability = r2.ability ∧ r1.pca = r2.pca ∧ r1.factor = r2.factor ∧
      r1.noise = r2.noise := by
  obtain ⟨_, ha1, hc1, hn1, hf1⟩ := mem_meltPeople n pois pc fc nc r1 h1
  obtain ⟨_, ha2, hc2, hn2, hf2⟩ := mem_meltPeople n pois pc fc nc r2 h2
  rw [ha1, ha2, hc1, hc2, hn1, hn2, hf1, hf2, hp]
  exact ⟨rfl, rfl, rfl, rfl⟩

/-- Witness for C5: the 1990 and 1991 records of person 0 in a concrete
two-entity panel. -/
theorem C5_entity_columns_constant_within_entity_witness :
    (⟨0, 0, 0, 0, 0, 1990, 2⟩ : MeltedRow) ∈
        meltPeople 2 (fun _ k => k) (fun i => (i : ℚ)) (fun i => (i : ℚ)) (fun i => (i : ℚ)) ∧
      (⟨0, 0, 0, 0, 0, 1991, 6⟩ : MeltedRow) ∈
        meltPeople 2 (fun _ k => k) (fun i => (i : ℚ)) (fun i => (i : ℚ)) (fun i => (i : ℚ)) ∧
      (MeltedRow.ability ⟨0, 0, 0, 0, 0, 1990, 2⟩ = MeltedRow.ability ⟨0, 0, 0, 0, 0, 1991, 6⟩ ∧
        MeltedRow.pca ⟨0, 0, 0, 0, 0, 1990, 2⟩ = MeltedRow.pca ⟨0, 0, 0, 0, 0, 1991, 6⟩ ∧
        MeltedRow.factor ⟨0, 0, 0, 0, 0, 1990, 2⟩ = MeltedRow.factor ⟨0, 0, 0, 0, 0, 1991, 6⟩ ∧
        MeltedRow.noise ⟨0, 0, 0, 0, 0, 1990, 2⟩ = MeltedRow.noise ⟨0, 0, 0, 0, 0, 1991, 6⟩) := by
  have h1 : (⟨0, 0, 0, 0, 0, 1990, 2⟩ : MeltedRow) ∈
      meltPeople 2 (fun _ k => k) (fun i => (i : ℚ)) (fun i => (i : ℚ)) (fun i => (i : ℚ)) := by
    norm_num [meltPeople, meltBlock, ability, e1990, e1991, e1992, drawPos, List.range_succ]
  have h2 : (⟨0, 0, 0, 0, 0, 1991, 6⟩ : MeltedRow) ∈
      meltPeople 2 (fun _ k => k) (fun i => (i : ℚ)) (fun i => (i : ℚ)) (fun i => (i : ℚ)) := by
    norm_num [meltPeople, meltBlock, ability, e1990, e1991, e1992, drawPos, List.range_succ]
  exact ⟨h1, h2,
    C5_entity_columns_constant_within_entity 2 (fun _ k => k)
      (fun i => (i : ℚ)) (fun i => (i : ℚ)) (fun i => (i : ℚ)) _ _ h1 h2 rfl⟩

/-- C6: in the naive regression of income on `education_level` alone
(model (b)), whenever the generated data have positive sample variance
of education and positive sample covariance between education and the
latent `ability` — the positive-correlation situation this generative
model produces — every solution of the model (b) normal equations has
its education coefficient strictly greater than the true coefficient 3. -/
theorem C6_naive_coefficient_exceeds_truth (n : ℕ) (pois : ℕ → ℕ → ℕ)
    (pc fc nc z : ℕ → ℚ)
    (hvar : 0 < Nn (regDataAbility (people_melted n pois pc fc nc z)) *
        Sxx (regDataAbility (people_melted n pois pc fc nc z)) -
          Sx (regDataAbility (people_melted n pois pc fc nc z)) *
            Sx (regDataAbility (people_melted n pois pc fc nc z)))
    (hcov : 0 < Nn (regDataAbility (people_melted n pois pc fc nc z)) *
        Sxz (regDataAbility (people_melted n pois pc fc nc z)) -
          Sx (regDataAbility (people_melted n pois pc fc nc z)) *
            Sz (regDataAbility (people_melted n pois pc fc nc z)))
    (b0 b1 : ℚ)
    (hne : normalEqs1 (regDataAbility (people_melted n pois pc fc nc z)) b0 b1) :
    3 < b1 :=
  ols1_bias_up (regDataAbility (people_melted n pois pc fc nc z))
    (regDataAbility_affine n pois pc fc nc z) hvar hcov b0 b1 hne

/-- Witness for C6 on a concrete two-entity panel: the fitted naive
slope is `1173/388 ≈ 3.023`, strictly above the true coefficient 3. -/
theorem C6_naive_coefficient_exceeds_truth_witness :
    normalEqs1 (regDataAbility (people_melted 2 (fun _ k => k)
        (fun i => (i : ℚ)) (fun i => (i : ℚ)) (fun i => (i : ℚ)) (fun _ => 0)))
      (1677 / 388) (1173 / 388) ∧
      (3 : ℚ) < 1173 / 388 := by
  have hne : normalEqs1 (regDataAbility (people_melted 2 (fun _ k => k)
      (fun i => (i : ℚ)) (fun i => (i : ℚ)) (fun i => (i : ℚ)) (fun _ => 0)))
      (1677 / 388) (1173 / 388) := by
    constructor <;>
      norm_num [regDataAbility, people_melted, peopleMeltedWith, noise_sd, incomeOf,
        meltPeople, meltBlock, ability, e1990, e1991, e1992, drawPos, List.range_succ,
        resid1]
  refine ⟨hne, ?_⟩
  refine C6_naive_coefficient_exceeds_truth 2 (fun _ k => k)
    (fun i => (i : ℚ)) (fun i => (i : ℚ)) (fun i => (i : ℚ)) (fun _ => 0) ?_ ?_
    (1677 / 388) (1173 / 388) hne
  · norm_num [Nn, Sx, Sxx, regDataAbility, people_melted, peopleMeltedWith, noise_sd,
      incomeOf, meltPeople, meltBlock, ability, e1990, e1991, e1992, drawPos,
      List.range_succ]
  · norm_num [Nn, Sx, Sz, Sxz, regDataAbility, people_melted, peopleMeltedWith, noise_sd,
      incomeOf, meltPeople, meltBlock, ability, e1990, e1991, e1992, drawPos,
      List.range_succ]

/-- C7 counterexample: the claim asserts that both reconstruction
models place the education coefficient strictly between the true value
3 and the naive model (b) estimate, but the recorded model (d)
coefficient (2.9981) is below 3, so the conjunction fails on the
notebook's own recorded run. -/
theorem C7_counterexample_pca_overcorrects :
    ¬ ((3 < recorded_d_education_coef ∧
          recorded_d_education_coef < recorded_b_education_coef) ∧
        (3 < recorded_e_education_coef ∧
          recorded_e_education_coef < recorded_b_education_coef)) := by
  intro h
  exact absurd h.1.1 (by norm_num [recorded_d_education_coef])

/-- C7 amended: the factor-analysis model (e) education coefficient
does lie strictly between the true coefficient 3 and the naive model
(b) estimate; the PCA model (d) coefficient instead falls slightly
below 3 (it overcorrects past the truth), while remaining closer to the
true coefficient than the naive estimate is. -/
theorem C7_amended_between_for_factor_below_for_pca :
    (3 < recorded_e_education_coef ∧
        recorded_e_education_coef < recorded_b_education_coef) ∧
      recorded_d_education_coef < 3 ∧
        3 - recorded_d_education_coef < recorded_b_education_coef - 3 := by
  norm_num [recorded_b_education_coef, recorded_d_education_coef,
    recorded_e_education_coef]

/-- C8: in the recorded negative-control model (f), the 95% confidence
interval of the `noise` coefficient contains 0, and the education
coefficient equals the naive model (b) estimate to within the printed
precision (no bias correction from the noise column). -/
theorem C8_noise_control_no_bias_correction :
    recorded_f_noise_ci_lower ≤ 0 ∧ 0 ≤ recorded_f_noise_ci_upper ∧
      |recorded_f_education_coef - recorded_b_education_coef| ≤ 1 / 1000 := by
  norm_num [recorded_f_noise_ci_lower, recorded_f_noise_ci_upper,
    recorded_f_education_coef, recorded_b_education_coef]

/-- C9 counterexample: the notebook fits and prints six regression
models, models (a) through (f), not five as the claim states. -/
theorem C9_counterexample_six_models : fittedModels.length ≠ 5 := by
  decide

/-- C9 amended: the evaluation component fits and reports exactly six
ordinary/mixed linear regression models of the outcome, one printed
summary per fitted model, in the enumerated order (a) through (f). -/
theorem C9_amended_six_models_in_order :
    fittedModels.length = 6 ∧
      fittedModels.map (fun m => m.formula) =
        [ "income ~ education_level + ability"
        , "income ~ education_level"
        , "income ~ education_level"
        , "income ~ education_level + pca"
        , "income ~ education_level + factor"
        , "income ~ education_level + noise" ] ∧
      fittedModels.map (fun m => m.kind) =
        [ ModelKind.ols, ModelKind.ols, ModelKind.mixedlm,
          ModelKind.ols, ModelKind.ols, ModelKind.ols ] ∧
      fittedModels.all (fun m => m.printedSummary) = true := by
  refine ⟨rfl, rfl, rfl, rfl⟩

/-- C10: the melt of an `n`-entity, 3-period wide panel has exactly
`3 * n` rows, and every (person, year) pair with `person < n` and year
among 1990, 1991, 1992 appears in exactly one row. -/
theorem C10_melt_shape (n : ℕ) (pois : ℕ → ℕ → ℕ) (pc fc nc : ℕ → ℚ)
    (i y : ℕ) (hi : i < n) (hy : y ∈ [1990, 1991, 1992]) :
    (meltPeople n pois pc fc nc).length = 3 * n ∧
      ((meltPeople n pois pc fc nc).map (fun r => (r.person, r.year))).countP
        (fun p => decide (p = (i, y))) = 1 := by
  constructor
  · simp [meltPeople, meltBlock]
    ring
  · have hkeys : (meltPeople n pois pc fc nc).map (fun r => (r.person, r.year))
        = (((List.range n).map (fun j => (j, 1990)) ++
            (List.range n).map (fun j => (j, 1991))) ++
              (List.range n).map (fun j => (j, 1992))) := by
      simp only [meltPeople, meltBlock, List.map_append, List.map_map]
      rfl
    rw [hkeys]
    have hinj : ∀ lab : ℕ, Function.Injective (fun j : ℕ => (j, lab)) := by
      intro lab a b hab
      exact (Prod.mk.injEq _ _ _ _).mp hab |>.1
    have hnod : ∀ lab : ℕ, ((List.range n).map (fun j => (j, lab))).Nodup :=
      fun lab => (List.nodup_range n).map (hinj lab)
    have hdisj : ∀ lab1 lab2 : ℕ, lab1 ≠ lab2 →
        List.Disjoint ((List.range n).map (fun j => (j, lab1)))
          ((List.range n).map (fun j => (j, lab2))) := by
      intro lab1 lab2 hne a ha hb
      rw [List.mem_map] at ha hb
      obtain ⟨j1, _, h1⟩ := ha
      obtain ⟨j2, _, h2⟩ := hb
      rw [← h2] at h1
      exact hne ((Prod.mk.injEq _ _ _ _).mp h1).2
    have hnodup : ((((List.range n).map (fun j => (j, 1990)) ++
        (List.range n).map (fun j => (j, 1991))) ++
          (List.range n).map (fun j => (j, 1992)))).Nodup := by
      refine ((hnod 1990).append (hnod 1991) (hdisj 1990 1991 (by omega))).append
        (hnod 1992) ?_
      intro a ha hb
      rw [List.mem_append] at ha
      rcases ha with ha | ha
      · exact hdisj 1990 1992 (by omega) ha hb
      · exact hdisj 1991 1992 (by omega) ha hb
    have hmem : (i, y) ∈ ((((List.range n).map (fun j => (j, 1990)) ++
        (List.range n).map (fun j => (j, 1991))) ++
          (List.range n).map (fun j => (j, 1992)))) := by
      simp only [List.mem_append, List.mem_map, List.mem_range]
      simp only [List.mem_cons, List.mem_singleton] at hy
      rcases hy with rfl | rfl | rfl | h
      · exact Or.inl (Or.inl ⟨i, hi, rfl⟩)
      · exact Or.inl (Or.inr ⟨i, hi, rfl⟩)
      · exact Or.inr ⟨i, hi, rfl⟩
      · exact absurd h (List.not_mem_nil y)
    exact List.count_eq_one_of_mem hnodup hmem

/-- Witness for C10: person 0 and year 1990 in a one-entity panel. -/
theorem C10_melt_shape_witness :
    (0 : ℕ) < 1 ∧ (1990 : ℕ) ∈ [1990, 1991, 1992] ∧
      (meltPeople 1 (fun _ k => k)
          (fun i => (i : ℚ)) (fun i => (i : ℚ)) (fun i => (i : ℚ))).length = 3 * 1 := by
  refine ⟨by decide, by decide, ?_⟩
  exact (C10_melt_shape 1 (fun _ k => k)
    (fun i => (i : ℚ)) (fun i => (i : ℚ)) (fun i => (i : ℚ))
    0 1990 (by decide) (by decide)).1

end DeconfounderFE
